import Mathlib

/-!
Shallow embedding of the rate-gated logging macro of the log_hz crate
(src/src/lib.rs, inside the log_hz! macro expansion, lines 126-195).

Each macro expansion site holds three statics:
  START_TIME  : LazyLock<Instant>  (line 140), initialized at first deref;
  INTERVAL_NS : LazyLock<u64>      (lines 144-151), computed once from the rate;
  LAST_LOG_NS : AtomicU64          (line 155), initialized to 0.

u64 values are embedded as natural numbers below 2^64; the inputs we
quantify over (clock readings, stored values) are u64 readings, so the
embedding works directly on Nat, where truncated subtraction coincides
with u64::saturating_sub. f64 arithmetic in the INTERVAL_NS computation
is idealized as exact rational arithmetic; at every concrete rate used
in a theorem below, the f64 rounding error (relative size about 2^-52)
is far smaller than the distance from the exact value to the nearest
integer boundary, so the truncating cast yields the same u64 either way.
-/

namespace LogHz

/-- Largest u64 value, the saturation bound of the float-to-int cast and the
sentinel interval used for non-positive rates (lib.rs line 149). -/
def u64Max : ℕ := 2 ^ 64 - 1

/-- u64::saturating_sub embedded on Nat: truncated subtraction is exactly
saturating subtraction for values in range (lib.rs line 170). -/
def saturatingSub (a b : ℕ) : ℕ := a - b

/-- INTERVAL_NS (lib.rs lines 144-151): for positive rate, the f64 expression
1.0 / rate * 1_000_000_000.0 cast to u64.  The cast truncates toward zero and
saturates at u64::MAX; a rate of zero or less yields u64::MAX. -/
def INTERVAL_NS (rate : ℚ) : ℕ :=
  if 0 < rate then min u64Max (Int.toNat ⌊1 / rate * 1000000000⌋) else u64Max

/-- Fast-path time check (lib.rs line 170):
elapsed_ns.saturating_sub(last_ns) >= *INTERVAL_NS. -/
def thresholdPassed (intervalNs elapsedNs lastNs : ℕ) : Bool :=
  decide (intervalNs ≤ saturatingSub elapsedNs lastNs)

/-- One execution of the try-admit body (lib.rs lines 164-192) against the
current value `cur` of LAST_LOG_NS at the instant the compare_exchange runs:
`lastSeen` is the value returned by the Relaxed load of this thread (line 164) and
`elapsedNs` its clock reading (line 166).  The compare_exchange (line 185)
succeeds exactly when the atomic still holds `lastSeen`.  Returns the
admission decision and the new value of LAST_LOG_NS. -/
def tryAdmit (intervalNs cur lastSeen elapsedNs : ℕ) : Bool × ℕ :=
  if thresholdPassed intervalNs elapsedNs lastSeen then
    if cur = lastSeen then (true, elapsedNs) else (false, cur)
  else (false, cur)

/-- Single-threaded run of successive macro invocations on an armed gate:
the Relaxed load of each call returns the current value, and `es` lists the
successive elapsed-ns clock readings.  Returns (number of admissions,
final LAST_LOG_NS). -/
def runSeq (intervalNs : ℕ) : ℕ → List ℕ → ℕ × ℕ
  | cur, [] => (0, cur)
  | cur, e :: es =>
    let r := tryAdmit intervalNs cur cur e
    let rest := runSeq intervalNs r.2 es
    ((if r.1 then 1 else 0) + rest.1, rest.2)

/-- Contended run: every racing thread loaded the same value `v` of
LAST_LOG_NS before any compare_exchange executed; the compare_exchange
operations then run in list order, each with its own elapsed reading.
Returns (number of admissions, final LAST_LOG_NS). -/
def runRace (intervalNs v : ℕ) : ℕ → List ℕ → ℕ × ℕ
  | cur, [] => (0, cur)
  | cur, e :: es =>
    let r := tryAdmit intervalNs cur v e
    let rest := runRace intervalNs v r.2 es
    ((if r.1 then 1 else 0) + rest.1, rest.2)

/-- General interleaved run: each attempt supplies the value its Relaxed load
returned and its elapsed reading; returns the final LAST_LOG_NS. -/
def runAttempts (intervalNs : ℕ) : ℕ → List (ℕ × ℕ) → ℕ
  | cur, [] => cur
  | cur, a :: as => runAttempts intervalNs (tryAdmit intervalNs cur a.1 a.2).2 as

/-- The three statics of one macro-expansion call site.  `none` models a
LazyLock that has not been initialized yet; LAST_LOG_NS starts at 0. -/
structure GateState where
  startTime : Option ℕ
  intervalNs : Option ℕ
  lastLogNs : ℕ

/-- A freshly declared call site: both LazyLocks uninitialized, LAST_LOG_NS
zero (lib.rs lines 140, 144, 155). -/
def GateState.fresh : GateState := ⟨none, none, 0⟩

/-- One single-threaded macro invocation (lib.rs lines 164-192), with lazy
initialization.  `tNow` is the Instant::now() reading taken at line 165;
`tLazy` is the Instant::now() reading used to initialize START_TIME if its
first deref happens during this call (line 166) - note that deref happens
AFTER line 165, so on the initializing call a monotonic clock gives
tNow ≤ tLazy.  Instant::duration_since saturates at zero when the other
instant is later.  The compare_exchange of the single thread always succeeds
when reached, since the value cannot have changed since its own load. -/
def gateCall (rate : ℚ) (st : GateState) (tNow tLazy : ℕ) : Bool × GateState :=
  let start := st.startTime.getD tLazy
  let interval := st.intervalNs.getD (INTERVAL_NS rate)
  let elapsed := saturatingSub tNow start
  let armed : GateState := ⟨some start, some interval, st.lastLogNs⟩
  if thresholdPassed interval elapsed armed.lastLogNs then
    (true, { armed with lastLogNs := elapsed })
  else (false, armed)

/-- Single-threaded run of whole macro invocations from a given state; each
element of the list carries the (tNow, tLazy) clock readings of one call. -/
def runGate (rate : ℚ) (st : GateState) : List (ℕ × ℕ) → GateState
  | [] => st
  | t :: ts => runGate rate (gateCall rate st t.1 t.2).2 ts

/-- Modelled from the spec: section 3 defines the interval of a positive rate
as round(1e9 / rate), the nearest-integer rounding, with non-positive rates
unbounded (here: the u64 saturation bound stands for the unbounded case). -/
def intervalSpecRound (rate : ℚ) : ℕ :=
  if 0 < rate then min u64Max (Int.toNat (round ((1000000000 : ℚ) / rate))) else u64Max

/-- Truncating variant of the spec interval: floor(1e9 / rate) for positive
rates, saturated at u64::MAX, unbounded sentinel otherwise. -/
def intervalSpecTrunc (rate : ℚ) : ℕ :=
  if 0 < rate then min u64Max (Int.toNat ⌊(1000000000 : ℚ) / rate⌋) else u64Max

/-! Helper lemmas about the interval computation and the gate state. -/

/-- On a positive rate the source expression 1 / rate * 1e9 equals 1e9 / rate,
so INTERVAL_NS is the saturated floor of 1e9 / rate. -/
theorem interval_ns_of_pos (r : ℚ) (hr : 0 < r) :
    INTERVAL_NS r = min u64Max (Int.toNat ⌊(1000000000 : ℚ) / r⌋) := by
  have h : 1 / r * 1000000000 = (1000000000 : ℚ) / r := by ring
  rw [INTERVAL_NS, if_pos hr, h]

/-- A non-positive rate yields the u64::MAX sentinel interval. -/
theorem interval_ns_of_nonpos (r : ℚ) (hr : r ≤ 0) : INTERVAL_NS r = u64Max := by
  rw [INTERVAL_NS, if_neg (not_lt.mpr hr)]

/-- Rates above 1e9 Hz give a zero interval: 1e9 / rate lies in [0, 1). -/
theorem interval_ns_eq_zero (r : ℚ) (hr : 1000000000 < r) : INTERVAL_NS r = 0 := by
  have hr0 : 0 < r := lt_trans (by norm_num) hr
  have hlt : (1000000000 : ℚ) / r < 1 := (div_lt_one hr0).mpr hr
  have hge : (0 : ℚ) ≤ 1000000000 / r := by positivity
  have hfl : ⌊(1000000000 : ℚ) / r⌋ = 0 := by
    rw [Int.floor_eq_zero_iff]
    exact Set.mem_Ico.mpr ⟨hge, hlt⟩
  rw [interval_ns_of_pos r hr0, hfl]
  rfl

/-- Rate 1 Hz gives the expected one-second interval. -/
theorem interval_ns_one : INTERVAL_NS 1 = 1000000000 := by
  have hfl : ⌊(1000000000 : ℚ) / 1⌋ = 1000000000 := by
    rw [Int.floor_eq_iff]
    norm_num
  rw [interval_ns_of_pos 1 (by norm_num), hfl]
  decide

/-- A gate call always leaves both LazyLocks initialized: to their previous
value when already set, else to the value established during this call. -/
theorem gateCall_snd_fields (rate : ℚ) (st : GateState) (tNow tLazy : ℕ) :
    (gateCall rate st tNow tLazy).2.startTime = some (st.startTime.getD tLazy) ∧
      (gateCall rate st tNow tLazy).2.intervalNs =
        some (st.intervalNs.getD (INTERVAL_NS rate)) := by
  simp only [gateCall]
  split <;> simp

/-- Once both LazyLocks hold values, no later sequence of calls changes them. -/
theorem runGate_fields (rate : ℚ) (ts : List (ℕ × ℕ)) :
    ∀ (st : GateState) (a b : ℕ), st.startTime = some a → st.intervalNs = some b →
      (runGate rate st ts).startTime = some a ∧ (runGate rate st ts).intervalNs = some b := by
  induction ts with
  | nil =>
    intro st a b h1 h2
    simpa [runGate] using ⟨h1, h2⟩
  | cons t ts ih =>
    intro st a b h1 h2
    have h := gateCall_snd_fields rate st t.1 t.2
    rw [h1, h2] at h
    simp only [Option.getD_some] at h
    simpa [runGate] using ih _ a b h.1 h.2

/-! Claim theorems. -/

/-- Claim C1 (code bug): the claim says the first try_admit call on a
freshly-initialized gate returns true for every positive rate.  The code
reads Instant::now() (line 165) BEFORE the first deref of START_TIME
(line 166) initializes it, so with a monotonic clock the lazily captured
epoch is not earlier than the reading, elapsed_ns saturates to 0, and the
check 0 >= INTERVAL_NS fails for rate 1 (interval 1e9 ns): the first call
returns false, contradicting the comment on line 154 and the test
rate_filtering_works. -/
theorem first_call_returns_false (tNow tLazy : ℕ) (h : tNow ≤ tLazy) :
    (0 : ℚ) < 1 ∧ (gateCall 1 GateState.fresh tNow tLazy).1 = false := by
  refine ⟨by norm_num, ?_⟩
  have hs : saturatingSub tNow tLazy = 0 := by
    unfold saturatingSub
    omega
  have hth : thresholdPassed (INTERVAL_NS 1) (saturatingSub tNow tLazy) 0 = false := by
    rw [hs, interval_ns_one]
    decide
  simp [gateCall, GateState.fresh, hth]

/-- Witness for C1 at the concrete first-call input tNow = tLazy = 0. -/
theorem first_call_returns_false_witness :
    (0 : ℕ) ≤ 0 ∧ ((0 : ℚ) < 1 ∧ (gateCall 1 GateState.fresh 0 0).1 = false) :=
  ⟨Nat.le_refl 0, first_call_returns_false 0 0 (Nat.le_refl 0)⟩

/-- Claim C2 counterexample: for rate 0 (a non-positive rate) the claim says
the first call returns true; in the code the first call computes elapsed 0
and compares it against the u64::MAX sentinel interval, so it returns false. -/
theorem degenerate_rate_first_call_false :
    (0 : ℚ) ≤ 0 ∧ (gateCall 0 GateState.fresh 3 5).1 = false := by
  refine ⟨le_refl 0, ?_⟩
  have hth : thresholdPassed (INTERVAL_NS 0) (saturatingSub 3 5) 0 = false := by
    rw [interval_ns_of_nonpos 0 (le_refl 0)]
    decide
  simp [gateCall, GateState.fresh, hth]

/-- With the u64::MAX sentinel interval, no reading below u64::MAX ever
passes the threshold, so a run from the fresh value 0 admits nothing. -/
theorem runSeq_never_with_umax :
    ∀ (es : List ℕ), (∀ e ∈ es, e < u64Max) → runSeq u64Max 0 es = (0, 0) := by
  intro es
  induction es with
  | nil =>
    intro
    rfl
  | cons e es ih =>
    intro hb
    have he : e < u64Max := hb e (by simp)
    have hth : thresholdPassed u64Max e 0 = false := by
      simp only [thresholdPassed, saturatingSub, Nat.sub_zero, decide_eq_false_iff_not]
      omega
    have hrest := ih (fun x hx => hb x (by simp [hx]))
    simp [runSeq, tryAdmit, hth, hrest]

/-- Claim C2 (amended): a rate less than or equal to zero admits no call at
all - every try_admit whose elapsed reading is below u64::MAX returns false
(the interval is the u64::MAX sentinel and LAST_LOG_NS stays 0), so over any
realistic lifetime the gate admits zero times, not exactly once. -/
theorem degenerate_rate_never_admits (r : ℚ) (hr : r ≤ 0) (es : List ℕ)
    (hes : ∀ e ∈ es, e < u64Max) : (runSeq (INTERVAL_NS r) 0 es).1 = 0 := by
  rw [interval_ns_of_nonpos r hr, runSeq_never_with_umax es hes]

/-- Witness for the amended C2 at rate 0 with readings 1, 2, 3. -/
theorem degenerate_rate_never_admits_witness :
    (0 : ℚ) ≤ 0 ∧ (∀ e ∈ [1, 2, 3], e < u64Max) ∧
      (runSeq (INTERVAL_NS 0) 0 [1, 2, 3]).1 = 0 :=
  ⟨le_refl 0, by decide, degenerate_rate_never_admits 0 (le_refl 0) [1, 2, 3] (by decide)⟩

/-- Claim C7: when the clock reading makes elapsed smaller than the stored
last_admit value, the saturating subtraction yields 0 instead of
underflowing, and try_admit still returns a decision - false, with the state
unchanged, whenever the interval is nonzero. -/
theorem backward_time_saturates (I cur lastSeen e : ℕ) (h : e < lastSeen) :
    saturatingSub e lastSeen = 0 ∧ (0 < I → tryAdmit I cur lastSeen e = (false, cur)) := by
  have hs : saturatingSub e lastSeen = 0 := by
    unfold saturatingSub
    omega
  refine ⟨hs, fun hI => ?_⟩
  have hth : thresholdPassed I e lastSeen = false := by
    simp only [thresholdPassed, hs, decide_eq_false_iff_not]
    omega
  simp [tryAdmit, hth]

/-- Witness for C7 at elapsed 3 behind stored value 5, interval 1. -/
theorem backward_time_saturates_witness :
    3 < 5 ∧ (saturatingSub 3 5 = 0 ∧ (0 < 1 → tryAdmit 1 7 5 3 = (false, 7))) :=
  ⟨by decide, backward_time_saturates 1 7 5 3 (by decide)⟩

/-- Claim C8: every try_admit call that returns false leaves LAST_LOG_NS
unchanged, both on the cheap fast-path rejection and on a failed
compare-and-swap; only an admitting call mutates the state. -/
theorem non_admission_frame (I cur lastSeen e : ℕ)
    (h : (tryAdmit I cur lastSeen e).1 = false) : (tryAdmit I cur lastSeen e).2 = cur := by
  unfold tryAdmit at h ⊢
  split_ifs at h ⊢ with h1 h2
  all_goals rfl

/-- Witness for C8 at a fast-path rejection: interval 1e9, elapsed 5. -/
theorem non_admission_frame_witness :
    (tryAdmit 1000000000 0 0 5).1 = false ∧ (tryAdmit 1000000000 0 0 5).2 = 0 :=
  ⟨by decide, non_admission_frame 1000000000 0 0 5 (by decide)⟩

/-- Once a gate has admitted inside the window, every further admission point
advances by at least the interval, so the remaining admissions are bounded by
the remaining room in the window divided by the interval. -/
theorem runSeq_count_bounded (I lo W : ℕ) (hI : 0 < I) :
    ∀ (es : List ℕ), (∀ e ∈ es, e ≤ lo + W) → ∀ last, lo ≤ last →
      (runSeq I last es).1 ≤ (lo + W - last) / I := by
  intro es
  induction es with
  | nil =>
    intro _ last _
    simp [runSeq]
  | cons e es ih =>
    intro hb last hlo
    have he : e ≤ lo + W := hb e (by simp)
    have hb2 : ∀ x ∈ es, x ≤ lo + W := fun x hx => hb x (by simp [hx])
    by_cases hadm : I ≤ e - last
    · have hth : thresholdPassed I e last = true := by
        simp [thresholdPassed, saturatingSub, hadm]
      have hstep : last + I ≤ e := by omega
      have h1 : (runSeq I e es).1 ≤ (lo + W - e) / I := ih hb2 e (by omega)
      have h2 : (lo + W - e) + I ≤ lo + W - last := by omega
      have h3 : ((lo + W - e) + I) / I ≤ (lo + W - last) / I := Nat.div_le_div_right h2
      rw [Nat.add_div_right _ hI] at h3
      have h4 : (runSeq I last (e :: es)).1 = 1 + (runSeq I e es).1 := by
        simp [runSeq, tryAdmit, hth]
      omega
    · have hth : thresholdPassed I e last = false := by
        simp only [thresholdPassed, saturatingSub, decide_eq_false_iff_not]
        omega
      have h4 : (runSeq I last (e :: es)).1 = (runSeq I last es).1 := by
        simp [runSeq, tryAdmit, hth]
      rw [h4]
      exact ih hb2 last hlo

/-- Claim C3: for a gate armed with a positive interval I, any finite
sequence of calls whose elapsed readings all fall within a window
[lo, lo + W] produces at most W / I + 1 admissions, whatever value
LAST_LOG_NS holds when the window opens; in particular back-to-back calls
(W smaller than I) admit at most once. -/
theorem throttling_window_bound (I lo W : ℕ) (hI : 0 < I) :
    ∀ (es : List ℕ), (∀ e ∈ es, lo ≤ e ∧ e ≤ lo + W) → ∀ last,
      (runSeq I last es).1 ≤ W / I + 1 := by
  intro es
  induction es with
  | nil =>
    intro _ last
    simp [runSeq]
  | cons e es ih =>
    intro hb last
    have hlo : lo ≤ e := (hb e (by simp)).1
    have hhi : e ≤ lo + W := (hb e (by simp)).2
    have hb2 : ∀ x ∈ es, lo ≤ x ∧ x ≤ lo + W := fun x hx => hb x (by simp [hx])
    by_cases hadm : I ≤ e - last
    · have hth : thresholdPassed I e last = true := by
        simp [thresholdPassed, saturatingSub, hadm]
      have h1 : (runSeq I e es).1 ≤ (lo + W - e) / I :=
        runSeq_count_bounded I lo W hI es (fun x hx => (hb2 x hx).2) e hlo
      have h2 : (lo + W - e) / I ≤ W / I := Nat.div_le_div_right (by omega)
      have h4 : (runSeq I last (e :: es)).1 = 1 + (runSeq I e es).1 := by
        simp [runSeq, tryAdmit, hth]
      omega
    · have hth : thresholdPassed I e last = false := by
        simp only [thresholdPassed, saturatingSub, decide_eq_false_iff_not]
        omega
      have h4 : (runSeq I last (e :: es)).1 = (runSeq I last es).1 := by
        simp [runSeq, tryAdmit, hth]
      rw [h4]
      exact ih hb2 last

/-- Witness for C3: interval 1e9, three back-to-back readings at 5 inside a
zero-width window admit at most once. -/
theorem throttling_window_bound_witness :
    (0 < 1000000000 ∧ ∀ e ∈ [5, 5, 5], 5 ≤ e ∧ e ≤ 5 + 0) ∧
      (runSeq 1000000000 0 [5, 5, 5]).1 ≤ 0 / 1000000000 + 1 :=
  ⟨⟨by decide, by decide⟩,
    throttling_window_bound 1000000000 5 0 (by decide) [5, 5, 5] (by decide) 0⟩

/-- Claim C4 counterexample: the claim says every successful compare-and-swap
stores a value at least as large as the one it replaces, on any gate.  With
rate 2e9 Hz the interval is 0: after an admission stores 5, a racer that
loaded 5 but read a stale elapsed 3 (cross-thread coarse-clock skew) passes
the check (3 - 5 saturates to 0 >= 0), its compare-and-swap succeeds, and
LAST_LOG_NS decreases from 5 to 3. -/
theorem cas_can_store_smaller :
    INTERVAL_NS 2000000000 = 0 ∧
      runAttempts (INTERVAL_NS 2000000000) 0 [(0, 5)] = 5 ∧
      tryAdmit (INTERVAL_NS 2000000000) 5 5 3 = (true, 3) ∧ 3 < 5 := by
  have h : INTERVAL_NS 2000000000 = 0 := interval_ns_eq_zero 2000000000 (by norm_num)
  rw [h]
  exact ⟨rfl, by decide, by decide, by decide⟩

/-- Claim C4 (amended): on any gate whose computed interval is nonzero (every
rate up to 1e9 Hz), a successful compare-and-swap advances LAST_LOG_NS by at
least the interval, so the stored value never decreases and successive
admitted elapsed values are at least interval_ns apart. -/
theorem cas_monotone_of_pos_interval (I cur lastSeen e : ℕ) (hI : 0 < I)
    (hadm : (tryAdmit I cur lastSeen e).1 = true) :
    cur + I ≤ (tryAdmit I cur lastSeen e).2 := by
  unfold tryAdmit at hadm ⊢
  split_ifs at hadm ⊢ with h1 h2
  simp only [thresholdPassed, saturatingSub, decide_eq_true_eq] at h1
  subst h2
  show cur + I ≤ e
  omega

/-- Witness for the amended C4: interval 1, stored 0, elapsed 5. -/
theorem cas_monotone_of_pos_interval_witness :
    (0 < 1 ∧ (tryAdmit 1 0 0 5).1 = true) ∧ 0 + 1 ≤ (tryAdmit 1 0 0 5).2 :=
  ⟨⟨by decide, by decide⟩, cas_monotone_of_pos_interval 1 0 0 5 (by decide) (by decide)⟩

/-- Claim C5 counterexample: at rate 6 Hz the code computes
floor(1e9 / 6) = 166666666 while the nearest-integer rounding demanded by the
claim is 166666667: INTERVAL_NS truncates, it does not round. -/
theorem interval_not_rounded :
    INTERVAL_NS 6 = 166666666 ∧ intervalSpecRound 6 = 166666667 ∧
      INTERVAL_NS 6 ≠ intervalSpecRound 6 := by
  have hf : ⌊(1000000000 : ℚ) / 6⌋ = 166666666 := by
    rw [Int.floor_eq_iff]
    norm_num
  have hr : round ((1000000000 : ℚ) / 6) = 166666667 := by
    rw [round_eq, Int.floor_eq_iff]
    norm_num
  have h1 : INTERVAL_NS 6 = 166666666 := by
    rw [interval_ns_of_pos 6 (by norm_num), hf]
    decide
  have h2 : intervalSpecRound 6 = 166666667 := by
    unfold intervalSpecRound
    rw [if_pos (by norm_num : (0 : ℚ) < 6), hr]
    decide
  refine ⟨h1, h2, ?_⟩
  rw [h1, h2]
  decide

/-- Claim C5 (amended): for every rate the cached interval equals the
truncation (floor) of 1e9 / rate saturated at u64::MAX for positive rates,
and the u64::MAX sentinel otherwise. -/
theorem interval_is_truncated (r : ℚ) : INTERVAL_NS r = intervalSpecTrunc r := by
  by_cases hr : 0 < r
  · rw [interval_ns_of_pos r hr]
    unfold intervalSpecTrunc
    rw [if_pos hr]
  · unfold INTERVAL_NS intervalSpecTrunc
    rw [if_neg hr, if_neg hr]

/-- A racer whose compare_exchange expects a value the atomic no longer
holds fails, and with no successful swap the value never returns to the
expected one, so the remaining racers all fail. -/
theorem runRace_stuck (I v : ℕ) :
    ∀ (es : List ℕ) (cur : ℕ), cur ≠ v → runRace I v cur es = (0, cur) := by
  intro es
  induction es with
  | nil =>
    intro cur _
    rfl
  | cons e es ih =>
    intro cur hcv
    have hfail : tryAdmit I cur v e = (false, cur) := by
      unfold tryAdmit
      by_cases hth : thresholdPassed I e v = true
      · rw [if_pos hth, if_neg hcv]
      · rw [if_neg hth]
    simp [runRace, hfail, ih cur hcv]

/-- Claim C6 (amended): when the interval is nonzero, among N racers that all
loaded the same LAST_LOG_NS value and all pass the time check, exactly one
compare-and-swap succeeds: the winner stores a strictly larger value, so
every later racer expects a stale value and fails. -/
theorem race_exactly_one_admitted (I v : ℕ) (hI : 0 < I) (es : List ℕ)
    (hne : es ≠ []) (hpass : ∀ e ∈ es, I ≤ e - v) : (runRace I v v es).1 = 1 := by
  cases es with
  | nil => exact absurd rfl hne
  | cons e es =>
    have h1 : I ≤ e - v := hpass e (by simp)
    have hth : thresholdPassed I e v = true := by
      simp [thresholdPassed, saturatingSub, h1]
    have hev : e ≠ v := by omega
    have hfirst : tryAdmit I v v e = (true, e) := by
      simp [tryAdmit, hth]
    simp [runRace, hfirst, runRace_stuck I v es e hev]

/-- Witness for the amended C6: interval 10, loaded value 1, three racers
with elapsed readings 12, 11, 13 - exactly one admission. -/
theorem race_exactly_one_admitted_witness :
    (0 < 10 ∧ ([12, 11, 13] : List ℕ) ≠ [] ∧ ∀ e ∈ [12, 11, 13], 10 ≤ e - 1) ∧
      (runRace 10 1 1 [12, 11, 13]).1 = 1 :=
  ⟨⟨by decide, by decide, by decide⟩,
    race_exactly_one_admitted 10 1 (by decide) [12, 11, 13] (by decide) (by decide)⟩

/-- Claim C6 counterexample: the claim says two concurrent compare-exchange
attempts for the same window can never both succeed.  With rate 2e9 Hz the
interval is 0; two racers that both loaded 0 and both read elapsed 0 pass
the time check, each compare-exchange proposes the loaded value itself, both
succeed, and both calls return true. -/
theorem race_double_admission :
    INTERVAL_NS 2000000000 = 0 ∧ (∀ e ∈ [0, 0], 0 ≤ e - 0) ∧
      (runRace (INTERVAL_NS 2000000000) 0 0 [0, 0]).1 = 2 := by
  have h : INTERVAL_NS 2000000000 = 0 := interval_ns_eq_zero 2000000000 (by norm_num)
  rw [h]
  exact ⟨rfl, by decide, by decide⟩

/-- Claim C9: the first call initializes START_TIME (to the instant captured
at its first deref) and INTERVAL_NS (to the cached rate computation) before
any LAST_LOG_NS update, and every later sequence of calls observes exactly
those values - neither static is ever modified again. -/
theorem start_and_interval_set_once (rate : ℚ) (t1 t2 : ℕ) (ts : List (ℕ × ℕ)) :
    (runGate rate (gateCall rate GateState.fresh t1 t2).2 ts).startTime = some t2 ∧
      (runGate rate (gateCall rate GateState.fresh t1 t2).2 ts).intervalNs =
        some (INTERVAL_NS rate) := by
  have h := gateCall_snd_fields rate GateState.fresh t1 t2
  simp only [GateState.fresh, Option.getD_none] at h
  exact runGate_fields rate ts _ t2 (INTERVAL_NS rate) h.1 h.2

/-- Claim C10: every rate above 1e9 Hz truncates to a zero interval, the
threshold check passes for every pair of readings (throttling is disabled),
and a successful swap may store a smaller elapsed value than it replaces. -/
theorem high_rate_disables_throttling (r : ℚ) (hr : 1000000000 < r) :
    INTERVAL_NS r = 0 ∧ (∀ e l, thresholdPassed (INTERVAL_NS r) e l = true) ∧
      tryAdmit (INTERVAL_NS r) 5 5 3 = (true, 3) ∧ 3 < 5 := by
  have h : INTERVAL_NS r = 0 := interval_ns_eq_zero r hr
  rw [h]
  refine ⟨rfl, fun e l => ?_, by decide, by decide⟩
  simp [thresholdPassed]

/-- Witness for C10 at the concrete rate 2e9 Hz. -/
theorem high_rate_disables_throttling_witness :
    (1000000000 : ℚ) < 2000000000 ∧
      (INTERVAL_NS 2000000000 = 0 ∧
        (∀ e l, thresholdPassed (INTERVAL_NS 2000000000) e l = true) ∧
        tryAdmit (INTERVAL_NS 2000000000) 5 5 3 = (true, 3) ∧ 3 < 5) :=
  ⟨by norm_num, high_rate_disables_throttling 2000000000 (by norm_num)⟩

end LogHz
